import Mathlib

/-!
Shallow embedding of the Theseus-and-Minotaur maze game (`src/lib.rs`).

Conventions of the embedding:
* Rust `(usize, usize)` positions (`.0` = row, `.1` = col) become the
  structure `Pos` with fields `row` and `col`.
* Rust `Vec<Vec<char>>` becomes `List (List Char)`.
* A Rust indexing expression `vec[r][c]` panics when out of range; cell
  reads and writes are therefore modelled in `Option`, with `none`
  standing for the panic.  Likewise `usize` subtraction `x - 1` panics
  (debug overflow check) when `x = 0`; the parser models that underflow
  with the dedicated `PR.fault` outcome.
* `a && b` in Rust short-circuits; the guards `!is_wall(p) && !is_goal(p)`
  read the same cell twice, which is observationally identical to reading
  the cell once and comparing it with both 'X' and 'G', so the embedding
  performs one read per guarded cell.
-/

/-- Row/column index pair; mirrors the Rust `(usize, usize)` with `.0` the
row index and `.1` the column index. -/
structure Pos where
  row : Nat
  col : Nat
deriving DecidableEq, Repr

/-- Mirrors `enum GameStatus`. -/
inductive GameStatus where
  | Win
  | Lose
  | Continue
deriving DecidableEq, Repr

/-- Mirrors `enum BoardError`. -/
inductive BoardError where
  | InvalidCharacter (c : Char)
  | InvalidSize
  | NoMinotaur
  | NoTheseus
  | NoGoal
  | MultipleMinotaur
  | MultipleTheseus
  | MultipleGoal
deriving DecidableEq, Repr

/-- Mirrors `struct Grid`. -/
structure Grid where
  vec : List (List Char)
  t_pos : Pos
  m_pos : Pos
  row_bound : Nat
  col_bound : Nat
deriving DecidableEq, Repr

/-- Mirrors `struct Game`. -/
structure Game where
  grid : Grid
  status : GameStatus
deriving DecidableEq, Repr

/-- Mirrors `enum Command`. -/
inductive Command where
  | Up
  | Down
  | Left
  | Right
  | Skip
deriving DecidableEq, Repr

/-- Read of `vec[row][col]` on a raw grid; `none` models the Rust panic
on an out-of-range index. -/
def readCellV (v : List (List Char)) (row col : Nat) : Option Char :=
  match v[row]? with
  | none => none
  | some r => r[col]?

/-- Read of `self.grid.vec[row][col]`. -/
def readCell (G : Grid) (row col : Nat) : Option Char :=
  readCellV G.vec row col

/-- Write `vec[row][col] = c`; `none` models the Rust panic on an
out-of-range index. -/
def writeCell (v : List (List Char)) (row col : Nat) (c : Char) :
    Option (List (List Char)) :=
  match v[row]? with
  | none => none
  | some r => if col < r.length then some (v.set row (r.set col c)) else none

/-- Mirrors the free function `process_char`.  The Rust version returns the
character back on success and threads `g_pos`/`t_pos`/`m_pos` through
`&mut Option` references; here the three option states are passed and
returned explicitly (the returned char is always the input char and the
caller pushes the original char, so it is omitted). -/
def process_char (chr : Char) (curr_pos : Pos)
    (g_pos t_pos m_pos : Option Pos) :
    Except BoardError (Option Pos × Option Pos × Option Pos) :=
  if chr = ' ' ∨ chr = 'X' then
    Except.ok (g_pos, t_pos, m_pos)
  else if chr = 'G' then
    match g_pos with
    | some _ => Except.error BoardError.MultipleGoal
    | none => Except.ok (some curr_pos, t_pos, m_pos)
  else if chr = 'T' then
    match t_pos with
    | some _ => Except.error BoardError.MultipleTheseus
    | none => Except.ok (g_pos, some curr_pos, m_pos)
  else if chr = 'M' then
    match m_pos with
    | some _ => Except.error BoardError.MultipleMinotaur
    | none => Except.ok (g_pos, t_pos, some curr_pos)
  else
    Except.error (BoardError.InvalidCharacter chr)

/-- Parse outcome: success, a `BoardError`, or a fault (arithmetic
underflow panic of `usize` subtraction in a debug build). -/
inductive PR (α : Type) where
  | ok (a : α)
  | err (e : BoardError)
  | fault
deriving DecidableEq, Repr

/-- Inner loop of `Grid::from_board` over one line's characters
(`for (col, c) in line.chars().enumerate()`), building `row_vec` and
threading the three entity-position options. -/
def scanRowAux (row col : Nat) (cs : List Char)
    (g_pos t_pos m_pos : Option Pos) :
    Except BoardError (List Char × Option Pos × Option Pos × Option Pos) :=
  match cs with
  | [] => Except.ok ([], g_pos, t_pos, m_pos)
  | c :: rest =>
    match process_char c ⟨row, col⟩ g_pos t_pos m_pos with
    | Except.error e => Except.error e
    | Except.ok (g1, t1, m1) =>
      match scanRowAux row (col + 1) rest g1 t1 m1 with
      | Except.error e => Except.error e
      | Except.ok (v, g2, t2, m2) => Except.ok (c :: v, g2, t2, m2)

/-- Outer loop of `Grid::from_board` over the board's lines
(`for (row, line) in board.lines().enumerate()`).  After each row the
source updates `col_bound = col_bound.max(row_vec.len() - 1)`; on a
zero-length row that `usize` subtraction underflows, modelled by
`PR.fault`. -/
def scanRows (rowIdx : Nat) (ls : List (List Char))
    (g_pos t_pos m_pos : Option Pos) (colBound : Nat) :
    PR (List (List Char) × Option Pos × Option Pos × Option Pos × Nat) :=
  match ls with
  | [] => PR.ok ([], g_pos, t_pos, m_pos, colBound)
  | l :: rest =>
    match scanRowAux rowIdx 0 l g_pos t_pos m_pos with
    | Except.error e => PR.err e
    | Except.ok (row_vec, g1, t1, m1) =>
      if row_vec.length = 0 then PR.fault
      else
        match scanRows (rowIdx + 1) rest g1 t1 m1
            (max colBound (row_vec.length - 1)) with
        | PR.fault => PR.fault
        | PR.err e => PR.err e
        | PR.ok (grid, g2, t2, m2, cb) => PR.ok (row_vec :: grid, g2, t2, m2, cb)

/-- Split a character list at newline characters. -/
def splitNl : List Char → List (List Char)
  | [] => [[]]
  | c :: rest =>
    if c = '\n' then [] :: splitNl rest
    else
      match splitNl rest with
      | [] => [[c]]
      | l :: ls => (c :: l) :: ls

/-- Strip one trailing carriage return, as Rust `str::lines` does for
`\r\n` line endings. -/
def stripCR (l : List Char) : List Char :=
  if l.getLast? = some '\r' then l.dropLast else l

/-- Mirrors Rust `str::lines`: split at `\n`, drop a final empty segment
(the final line ending is optional; the empty string has no lines), and
strip a trailing `\r` from each line. -/
def rustLines (s : String) : List (List Char) :=
  let segs := splitNl s.toList
  let segs :=
    match segs.getLast? with
    | some [] => segs.dropLast
    | _ => segs
  segs.map stripCR

/-- Mirrors `Grid::from_board`.  After the line loop the source computes
`let row_bound = grid.len() - 1;` before the missing-entity checks; on a
zero-row board that `usize` subtraction underflows, modelled by
`PR.fault`. -/
def from_board (board : String) : PR Grid :=
  match scanRows 0 (rustLines board) none none none 0 with
  | PR.fault => PR.fault
  | PR.err e => PR.err e
  | PR.ok (grid, g_pos, t_pos, m_pos, col_bound) =>
    if grid.length = 0 then PR.fault
    else
      let row_bound := grid.length - 1
      match g_pos with
      | none => PR.err BoardError.NoGoal
      | some _ =>
        match t_pos with
        | none => PR.err BoardError.NoTheseus
        | some tp =>
          match m_pos with
          | none => PR.err BoardError.NoMinotaur
          | some mp =>
            PR.ok ⟨grid, tp, mp, row_bound, col_bound⟩

/-- Mirrors `Grid::in_bounds`. -/
def in_bounds (G : Grid) (pos : Pos) : Bool :=
  decide (pos.row ≤ G.row_bound) && decide (pos.col ≤ G.col_bound)

/-- Mirrors `Game::from_board` (wraps the grid with `Continue`). -/
def game_from_board (board : String) : PR Game :=
  match from_board board with
  | PR.fault => PR.fault
  | PR.err e => PR.err e
  | PR.ok g => PR.ok ⟨g, GameStatus.Continue⟩

/-- Mirrors `Game::show`: for each row the source prints every character
and then `println!(" ")`, so each output line is the row's characters
followed by a trailing space. -/
def show_game (g : Game) : List (List Char) :=
  g.grid.vec.map (fun row => row ++ [' '])

/-- One branch of the `minotaur_move` candidate cascade: if `cond` holds
the guarded cell is read (`!is_wall && !is_goal`); a blocked cell falls
through to the next branch, exactly as the source's `else if` chain does.
Outer `none` is a panic of the cell read. -/
def mmBranch (G : Grid) (cond : Bool) (p : Pos)
    (next : Option (Option Pos)) : Option (Option Pos) :=
  if cond then
    match readCell G p.row p.col with
    | none => none
    | some c => if c = 'X' ∨ c = 'G' then next else some (some p)
  else next

/-- The `new_pos` selection of `Game::minotaur_move`: the four `else if`
branches in source order.  Note the source's fourth branch repeats the
condition `t_pos.0 < m_pos.0` of the third branch (it does not test
`t_pos.0 > m_pos.0`); the embedding reproduces that literally.  Inner
`none` is the final `else { return; }` (minotaur stays still). -/
def mm_candidate (g : Game) : Option (Option Pos) :=
  let m := g.grid.m_pos
  let t := g.grid.t_pos
  mmBranch g.grid (decide (t.col < m.col)) ⟨m.row, m.col - 1⟩
    (mmBranch g.grid (decide (m.col < t.col)) ⟨m.row, m.col + 1⟩
      (mmBranch g.grid (decide (t.row < m.row)) ⟨m.row - 1, m.col⟩
        (mmBranch g.grid (decide (t.row < m.row)) ⟨m.row + 1, m.col⟩
          (some none))))

/-- Mirrors `Game::minotaur_move`.  `none` models a panic (out-of-range
cell access). -/
def minotaur_move (g : Game) : Option Game :=
  match mm_candidate g with
  | none => none
  | some none => some g
  | some (some np) =>
    match readCell g.grid np.row np.col with
    | none => none
    | some c =>
      if c = 'T' then some { g with status := GameStatus.Lose }
      else
        match writeCell g.grid.vec g.grid.m_pos.row g.grid.m_pos.col ' ' with
        | none => none
        | some v1 =>
          match writeCell v1 np.row np.col 'M' with
          | none => none
          | some v2 =>
            some { g with grid := { g.grid with vec := v2, m_pos := np } }

/-- The `new_pos` computation of `Game::theseus_move`: `none` is the early
`return` when the offset would underflow below index 0 (`Up` from row 0,
`Left` from column 0). -/
def tm_candidate (g : Game) (cmd : Command) : Option Pos :=
  let t := g.grid.t_pos
  match cmd with
  | Command.Up => if t.row = 0 then none else some ⟨t.row - 1, t.col⟩
  | Command.Down => some ⟨t.row + 1, t.col⟩
  | Command.Left => if t.col = 0 then none else some ⟨t.row, t.col - 1⟩
  | Command.Right => some ⟨t.row, t.col + 1⟩
  | Command.Skip => some t

/-- Mirrors `Game::theseus_move`.  `none` models a panic (out-of-range
cell access on a ragged row that `in_bounds` admits). -/
def theseus_move (g : Game) (cmd : Command) : Option Game :=
  match tm_candidate g cmd with
  | none => some g
  | some np =>
    if !(in_bounds g.grid np) then some g
    else
      match readCell g.grid np.row np.col with
      | none => none
      | some c =>
        if c = 'M' then
          some { g with grid := { g.grid with t_pos := np },
                        status := GameStatus.Lose }
        else if c = 'G' then
          some { g with grid := { g.grid with t_pos := np },
                        status := GameStatus.Win }
        else if c = ' ' then
          match writeCell g.grid.vec g.grid.t_pos.row g.grid.t_pos.col ' ' with
          | none => none
          | some v1 =>
            match writeCell v1 np.row np.col 'T' with
            | none => none
            | some v2 =>
              some { g with grid := { g.grid with vec := v2, t_pos := np } }
        else some g

/-- Rust `char::to_ascii_lowercase`: lowercases ASCII uppercase letters
only. -/
def ascii_lower (c : Char) : Char :=
  if 65 ≤ c.toNat ∧ c.toNat ≤ 90 then Char.ofNat (c.toNat + 32) else c

/-- Mirrors the free function `input`.  The external line source is
modelled as the list of its remaining lines.  The source runs
`stdin.lines().next().unwrap()`; when no line is available `next()` is
`None` and the `unwrap` panics, modelled by the outer `none`.  (The inner
`unwrap` of the I/O `Result` is outside the embedding.) -/
def input (stdin_lines : List (List Char)) : Option (Option Command) :=
  match stdin_lines with
  | [] => none
  | line :: _ =>
    match line with
    | [] => some (some Command.Skip)
    | c :: _ =>
      let input_chr := ascii_lower c
      if input_chr = 'w' then some (some Command.Up)
      else if input_chr = 'a' then some (some Command.Left)
      else if input_chr = 's' then some (some Command.Down)
      else if input_chr = 'd' then some (some Command.Right)
      else some (some Command.Skip)

/-- Bounded universal over a list with the index threaded from `start`. -/
def allIdx {α : Type} (p : Nat → α → Bool) : Nat → List α → Bool
  | _, [] => true
  | i, a :: as => p i a && allIdx p (i + 1) as

/-- Well-formedness of a grid's entity bookkeeping: the stored seeker
position holds 'T', the stored hunter position holds 'M', and no other
cell holds 'T' or 'M'. -/
def coherent (G : Grid) : Bool :=
  decide (readCell G G.t_pos.row G.t_pos.col = some 'T') &&
  decide (readCell G G.m_pos.row G.m_pos.col = some 'M') &&
  allIdx (fun r rowv =>
    allIdx (fun c ch =>
      (decide (ch ≠ 'T') || decide (Pos.mk r c = G.t_pos)) &&
      (decide (ch ≠ 'M') || decide (Pos.mk r c = G.m_pos))) 0 rowv) 0 G.vec

/-- The cells of the stored seeker and hunter positions hold 'T' and 'M'
respectively (the placement part of `coherent`). -/
def placed (g : Game) : Prop :=
  readCell g.grid g.grid.t_pos.row g.grid.t_pos.col = some 'T' ∧
  readCell g.grid g.grid.m_pos.row g.grid.m_pos.col = some 'M'

/-!
Concrete games used to instantiate the theorems: each is the literal value
of `game_from_board` on a small board (checked by `decide`/`rfl` where
used), or the literal post-move state.
-/

/-- The game parsed from `"GT\n X\n M\n  "`: seeker above the hunter with
a wall directly above the hunter and a free cell below it. -/
def c1_g0 : Game :=
  ⟨⟨[['G', 'T'], [' ', 'X'], [' ', 'M'], [' ', ' ']],
    ⟨0, 1⟩, ⟨2, 1⟩, 3, 1⟩, GameStatus.Continue⟩

/-- The state after `minotaur_move c1_g0`: the hunter has moved down. -/
def c1_g1 : Game :=
  ⟨⟨[['G', 'T'], [' ', 'X'], [' ', ' '], [' ', 'M']],
    ⟨0, 1⟩, ⟨3, 1⟩, 3, 1⟩, GameStatus.Continue⟩

/-- The game parsed from `"GMT"`: seeker level with the hunter. -/
def c1_wg : Game :=
  ⟨⟨[['G', 'M', 'T']], ⟨0, 2⟩, ⟨0, 1⟩, 0, 2⟩, GameStatus.Continue⟩

/-- The state after `minotaur_move c1_wg` (capture: status flips). -/
def c1_wg_after : Game :=
  ⟨⟨[['G', 'M', 'T']], ⟨0, 2⟩, ⟨0, 1⟩, 0, 2⟩, GameStatus.Lose⟩

/-- The game parsed from `"GT\n X\n M"`: the hunter on the bottom row with
the seeker above it and a wall in between. -/
def c2_g : Game :=
  ⟨⟨[['G', 'T'], [' ', 'X'], [' ', 'M']],
    ⟨0, 1⟩, ⟨2, 1⟩, 2, 1⟩, GameStatus.Continue⟩

/-- The game parsed from `"G T\n  M"`. -/
def c4_g : Game :=
  ⟨⟨[['G', ' ', 'T'], [' ', ' ', 'M']], ⟨0, 2⟩, ⟨1, 2⟩, 1, 2⟩,
    GameStatus.Continue⟩

/-- The game parsed from `"G  \n T \n  M"`: seeker strictly left of and
above the hunter, both the left and up neighbours of the hunter free. -/
def c5_wg : Game :=
  ⟨⟨[['G', ' ', ' '], [' ', 'T', ' '], [' ', ' ', 'M']],
    ⟨1, 1⟩, ⟨2, 2⟩, 2, 2⟩, GameStatus.Continue⟩

/-- Copy of `c5_wg` used for the goal-avoidance instantiation. -/
def c6_wg : Game :=
  ⟨⟨[['G', ' ', ' '], [' ', 'T', ' '], [' ', ' ', 'M']],
    ⟨1, 1⟩, ⟨2, 2⟩, 2, 2⟩, GameStatus.Continue⟩

/-- The state after `minotaur_move c6_wg`: the hunter stepped left. -/
def c6_wg_after : Game :=
  ⟨⟨[['G', ' ', ' '], [' ', 'T', ' '], [' ', 'M', ' ']],
    ⟨1, 1⟩, ⟨2, 1⟩, 2, 2⟩, GameStatus.Continue⟩

/-- The game parsed from `"G  \n   \n TM"`: seeker directly left of the
hunter. -/
def c7_wg : Game :=
  ⟨⟨[['G', ' ', ' '], [' ', ' ', ' '], [' ', 'T', 'M']],
    ⟨2, 1⟩, ⟨2, 2⟩, 2, 2⟩, GameStatus.Continue⟩

/-- Copy of `c7_wg` used for the seeker-onto-hunter instantiation. -/
def c8_wg : Game :=
  ⟨⟨[['G', ' ', ' '], [' ', ' ', ' '], [' ', 'T', 'M']],
    ⟨2, 1⟩, ⟨2, 2⟩, 2, 2⟩, GameStatus.Continue⟩

/-- The game parsed from `"GTM"`. -/
def c10_init : Game :=
  ⟨⟨[['G', 'T', 'M']], ⟨0, 1⟩, ⟨0, 2⟩, 0, 2⟩, GameStatus.Continue⟩

/-- The game parsed from `"G  \nT M\n   "`. -/
def c10_wg : Game :=
  ⟨⟨[['G', ' ', ' '], ['T', ' ', 'M'], [' ', ' ', ' ']],
    ⟨1, 0⟩, ⟨1, 2⟩, 2, 2⟩, GameStatus.Continue⟩

/-- The state after `theseus_move c10_wg Command.Down`. -/
def c10_wg_after : Game :=
  ⟨⟨[['G', ' ', ' '], [' ', ' ', 'M'], ['T', ' ', ' ']],
    ⟨2, 0⟩, ⟨1, 2⟩, 2, 2⟩, GameStatus.Continue⟩

/-- The state after `minotaur_move c10_wg_after`: the hunter stepped
left. -/
def c10_wg2 : Game :=
  ⟨⟨[['G', ' ', ' '], [' ', 'M', ' '], ['T', ' ', ' ']],
    ⟨2, 0⟩, ⟨1, 1⟩, 2, 2⟩, GameStatus.Continue⟩

section CellLemmas

lemma readCellV_some {v : List (List Char)} {r c : Nat} {ch : Char} :
    readCellV v r c = some ch ↔
      ∃ rowv, v[r]? = some rowv ∧ rowv[c]? = some ch := by
  unfold readCellV
  cases h : v[r]? with
  | none => simp
  | some rowv => simp

lemma writeCell_some_of_read {v : List (List Char)} {r c : Nat} {x : Char}
    (ch : Char) (h : readCellV v r c = some x) :
    ∃ v', writeCell v r c ch = some v' := by
  rcases readCellV_some.mp h with ⟨rowv, hr, hc⟩
  have hlt : c < rowv.length := (List.getElem?_eq_some.mp hc).1
  exact ⟨v.set r (rowv.set c ch), by simp [writeCell, hr, hlt]⟩

lemma writeCell_elim {v v' : List (List Char)} {r c : Nat} {ch : Char}
    (h : writeCell v r c ch = some v') :
    ∃ rowv, v[r]? = some rowv ∧ c < rowv.length ∧
      v' = v.set r (rowv.set c ch) := by
  cases hr : v[r]? with
  | none => simp [writeCell, hr] at h
  | some rowv =>
    by_cases hc : c < rowv.length
    · simp [writeCell, hr, hc] at h
      exact ⟨rowv, rfl, hc, h.symm⟩
    · simp [writeCell, hr, hc] at h

lemma writeCell_read_same {v v' : List (List Char)} {r c : Nat} {ch : Char}
    (h : writeCell v r c ch = some v') : readCellV v' r c = some ch := by
  rcases writeCell_elim h with ⟨rowv, hr, hc, rfl⟩
  have hrlt : r < v.length := (List.getElem?_eq_some.mp hr).1
  have h1 : (v.set r (rowv.set c ch))[r]? = some (rowv.set c ch) :=
    List.getElem?_set_self hrlt
  simp only [readCellV, h1]
  exact List.getElem?_set_self hc

lemma writeCell_read_other {v v' : List (List Char)} {r c r' c' : Nat}
    {ch : Char} (h : writeCell v r c ch = some v')
    (hne : r' ≠ r ∨ c' ≠ c) : readCellV v' r' c' = readCellV v r' c' := by
  rcases writeCell_elim h with ⟨rowv, hr, hc, rfl⟩
  by_cases hrr : r' = r
  · subst hrr
    rcases hne with hne | hne
    · exact absurd rfl hne
    · have hrlt : r' < v.length := (List.getElem?_eq_some.mp hr).1
      have h1 : (v.set r' (rowv.set c ch))[r']? = some (rowv.set c ch) :=
        List.getElem?_set_self hrlt
      simp only [readCellV, h1, hr]
      exact List.getElem?_set_ne (Ne.symm hne)
  · have h2 : (v.set r (rowv.set c ch))[r']? = v[r']? :=
      List.getElem?_set_ne (fun he => hrr he.symm)
    simp only [readCellV, h2]

end CellLemmas

section MoveLemmas

lemma mmBranch_elim {G : Grid} {cond : Bool} {p : Pos}
    {next : Option (Option Pos)} {np : Pos}
    (h : mmBranch G cond p next = some (some np)) :
    (cond = true ∧ np = p ∧
      ∃ c, readCell G p.row p.col = some c ∧ c ≠ 'X' ∧ c ≠ 'G') ∨
    next = some (some np) := by
  cases cond with
  | false => exact Or.inr (by simpa [mmBranch] using h)
  | true =>
    simp only [mmBranch, if_true] at h
    cases hr : readCell G p.row p.col with
    | none => simp [hr] at h
    | some c =>
      simp only [hr] at h
      by_cases hxg : c = 'X' ∨ c = 'G'
      · rw [if_pos hxg] at h; exact Or.inr h
      · rw [if_neg hxg] at h
        push_neg at hxg
        simp only [Option.some.injEq] at h
        exact Or.inl ⟨rfl, h.symm, c, rfl, hxg.1, hxg.2⟩

lemma mm_candidate_cases {g : Game} {np : Pos}
    (h : mm_candidate g = some (some np)) :
    (g.grid.t_pos.col < g.grid.m_pos.col ∧
      np = ⟨g.grid.m_pos.row, g.grid.m_pos.col - 1⟩) ∨
    (g.grid.m_pos.col < g.grid.t_pos.col ∧
      np = ⟨g.grid.m_pos.row, g.grid.m_pos.col + 1⟩) ∨
    (g.grid.t_pos.row < g.grid.m_pos.row ∧
      np = ⟨g.grid.m_pos.row - 1, g.grid.m_pos.col⟩) ∨
    (g.grid.t_pos.row < g.grid.m_pos.row ∧
      np = ⟨g.grid.m_pos.row + 1, g.grid.m_pos.col⟩) := by
  unfold mm_candidate at h
  rcases mmBranch_elim h with ⟨hc, hp, _⟩ | h
  · exact Or.inl ⟨of_decide_eq_true hc, hp⟩
  rcases mmBranch_elim h with ⟨hc, hp, _⟩ | h
  · exact Or.inr (Or.inl ⟨of_decide_eq_true hc, hp⟩)
  rcases mmBranch_elim h with ⟨hc, hp, _⟩ | h
  · exact Or.inr (Or.inr (Or.inl ⟨of_decide_eq_true hc, hp⟩))
  rcases mmBranch_elim h with ⟨hc, hp, _⟩ | h
  · exact Or.inr (Or.inr (Or.inr ⟨of_decide_eq_true hc, hp⟩))
  · cases h

lemma mm_candidate_ne_mpos {g : Game} {np : Pos}
    (h : mm_candidate g = some (some np)) : np ≠ g.grid.m_pos := by
  rcases mm_candidate_cases h with ⟨hlt, rfl⟩ | ⟨hlt, rfl⟩ | ⟨hlt, rfl⟩ | ⟨hlt, rfl⟩ <;>
    intro he
  · have h1 : g.grid.m_pos.col - 1 = g.grid.m_pos.col := congrArg Pos.col he
    omega
  · have h1 : g.grid.m_pos.col + 1 = g.grid.m_pos.col := congrArg Pos.col he
    omega
  · have h1 : g.grid.m_pos.row - 1 = g.grid.m_pos.row := congrArg Pos.row he
    omega
  · have h1 : g.grid.m_pos.row + 1 = g.grid.m_pos.row := congrArg Pos.row he
    omega

lemma minotaur_move_cases {g g' : Game} (h : minotaur_move g = some g') :
    (mm_candidate g = some none ∧ g' = g) ∨
    (∃ np, mm_candidate g = some (some np) ∧
      readCell g.grid np.row np.col = some 'T' ∧
      g' = { g with status := GameStatus.Lose }) ∨
    (∃ np c v1 v2, mm_candidate g = some (some np) ∧
      readCell g.grid np.row np.col = some c ∧ c ≠ 'T' ∧
      writeCell g.grid.vec g.grid.m_pos.row g.grid.m_pos.col ' ' = some v1 ∧
      writeCell v1 np.row np.col 'M' = some v2 ∧
      g' = { g with grid := { g.grid with vec := v2, m_pos := np } }) := by
  unfold minotaur_move at h
  cases hc : mm_candidate g with
  | none => simp [hc] at h
  | some o =>
    cases o with
    | none =>
      simp only [hc, Option.some.injEq] at h
      exact Or.inl ⟨rfl, h.symm⟩
    | some np =>
      simp only [hc] at h
      cases hr : readCell g.grid np.row np.col with
      | none => simp [hr] at h
      | some c =>
        simp only [hr] at h
        by_cases hT : c = 'T'
        · rw [if_pos hT] at h
          simp only [Option.some.injEq] at h
          exact Or.inr (Or.inl ⟨np, rfl, by rw [hT] at hr; exact hr, h.symm⟩)
        · rw [if_neg hT] at h
          cases hw1 : writeCell g.grid.vec g.grid.m_pos.row g.grid.m_pos.col ' ' with
          | none => simp [hw1] at h
          | some v1 =>
            simp only [hw1] at h
            cases hw2 : writeCell v1 np.row np.col 'M' with
            | none => simp [hw2] at h
            | some v2 =>
              simp only [hw2, Option.some.injEq] at h
              exact Or.inr (Or.inr ⟨np, c, v1, v2, rfl, hr, hT, rfl, hw2, h.symm⟩)

end MoveLemmas

section TheseusLemmas

lemma theseus_move_cases {g g' : Game} {cmd : Command}
    (h : theseus_move g cmd = some g') :
    (tm_candidate g cmd = none ∧ g' = g) ∨
    (∃ np, tm_candidate g cmd = some np ∧ in_bounds g.grid np = false ∧
      g' = g) ∨
    (∃ np, tm_candidate g cmd = some np ∧ in_bounds g.grid np = true ∧
      readCell g.grid np.row np.col = some 'M' ∧
      g' = { g with grid := { g.grid with t_pos := np },
                    status := GameStatus.Lose }) ∨
    (∃ np, tm_candidate g cmd = some np ∧ in_bounds g.grid np = true ∧
      readCell g.grid np.row np.col = some 'G' ∧
      g' = { g with grid := { g.grid with t_pos := np },
                    status := GameStatus.Win }) ∨
    (∃ np v1 v2, tm_candidate g cmd = some np ∧ in_bounds g.grid np = true ∧
      readCell g.grid np.row np.col = some ' ' ∧
      writeCell g.grid.vec g.grid.t_pos.row g.grid.t_pos.col ' ' = some v1 ∧
      writeCell v1 np.row np.col 'T' = some v2 ∧
      g' = { g with grid := { g.grid with vec := v2, t_pos := np } }) ∨
    (∃ np c, tm_candidate g cmd = some np ∧ in_bounds g.grid np = true ∧
      readCell g.grid np.row np.col = some c ∧
      c ≠ 'M' ∧ c ≠ 'G' ∧ c ≠ ' ' ∧ g' = g) := by
  unfold theseus_move at h
  cases hc : tm_candidate g cmd with
  | none =>
    simp only [hc, Option.some.injEq] at h
    exact Or.inl ⟨rfl, h.symm⟩
  | some np =>
    simp only [hc] at h
    cases hb : in_bounds g.grid np with
    | false =>
      rw [hb, if_pos (by simp)] at h
      simp only [Option.some.injEq] at h
      exact Or.inr (Or.inl ⟨np, rfl, hb, h.symm⟩)
    | true =>
      rw [hb, if_neg (by simp)] at h
      cases hr : readCell g.grid np.row np.col with
      | none => simp [hr] at h
      | some c =>
        simp only [hr] at h
        by_cases hM : c = 'M'
        · rw [if_pos hM] at h
          simp only [Option.some.injEq] at h
          exact Or.inr (Or.inr (Or.inl ⟨np, rfl, hb, by rw [hM] at hr; exact hr,
            h.symm⟩))
        · rw [if_neg hM] at h
          by_cases hG : c = 'G'
          · rw [if_pos hG] at h
            simp only [Option.some.injEq] at h
            exact Or.inr (Or.inr (Or.inr (Or.inl ⟨np, rfl, hb,
              by rw [hG] at hr; exact hr, h.symm⟩)))
          · rw [if_neg hG] at h
            by_cases hE : c = ' '
            · rw [if_pos hE] at h
              cases hw1 : writeCell g.grid.vec g.grid.t_pos.row g.grid.t_pos.col ' ' with
              | none => simp [hw1] at h
              | some v1 =>
                simp only [hw1] at h
                cases hw2 : writeCell v1 np.row np.col 'T' with
                | none => simp [hw2] at h
                | some v2 =>
                  simp only [hw2, Option.some.injEq] at h
                  exact Or.inr (Or.inr (Or.inr (Or.inr (Or.inl ⟨np, v1, v2, rfl,
                    hb, by rw [hE] at hr; exact hr, rfl, hw2, h.symm⟩))))
            · rw [if_neg hE] at h
              simp only [Option.some.injEq] at h
              exact Or.inr (Or.inr (Or.inr (Or.inr (Or.inr
                ⟨np, c, rfl, hb, hr, hM, hG, hE, h.symm⟩))))

end TheseusLemmas

section CoherenceLemmas

lemma allIdx_spec {α : Type} {p : Nat → α → Bool} :
    ∀ {l : List α} {i : Nat}, allIdx p i l = true →
      ∀ j a, l[j]? = some a → p (i + j) a = true := by
  intro l
  induction l with
  | nil => intro i _ j a hj; simp at hj
  | cons x xs ih =>
    intro i h j a hj
    rw [allIdx, Bool.and_eq_true] at h
    cases j with
    | zero =>
      simp only [List.getElem?_cons_zero, Option.some.injEq] at hj
      subst hj
      simpa using h.1
    | succ j =>
      simp only [List.getElem?_cons_succ] at hj
      have := ih h.2 j a hj
      have harith : i + 1 + j = i + (j + 1) := by omega
      rwa [harith] at this

lemma coherent_parts {G : Grid} (h : coherent G = true) :
    readCell G G.t_pos.row G.t_pos.col = some 'T' ∧
    readCell G G.m_pos.row G.m_pos.col = some 'M' ∧
    allIdx (fun r rowv =>
      allIdx (fun c ch =>
        (decide (ch ≠ 'T') || decide (Pos.mk r c = G.t_pos)) &&
        (decide (ch ≠ 'M') || decide (Pos.mk r c = G.m_pos))) 0 rowv) 0 G.vec
      = true := by
  rw [coherent, Bool.and_eq_true, Bool.and_eq_true] at h
  exact ⟨of_decide_eq_true h.1.1, of_decide_eq_true h.1.2, h.2⟩

lemma coherent_cell {G : Grid} (h : coherent G = true) {r c : Nat} {ch : Char}
    (hr : readCell G r c = some ch) :
    (ch = 'T' → Pos.mk r c = G.t_pos) ∧ (ch = 'M' → Pos.mk r c = G.m_pos) := by
  rcases readCellV_some.mp hr with ⟨rowv, hrow, hcell⟩
  have hall := (coherent_parts h).2.2
  have h1 := allIdx_spec hall r rowv hrow
  have h2 := allIdx_spec h1 c ch hcell
  simp only [Nat.zero_add] at h2
  rw [Bool.and_eq_true, Bool.or_eq_true, Bool.or_eq_true] at h2
  constructor
  · intro hT
    rcases h2.1 with h3 | h3
    · exact absurd hT (of_decide_eq_true h3)
    · exact of_decide_eq_true h3
  · intro hM
    rcases h2.2 with h3 | h3
    · exact absurd hM (of_decide_eq_true h3)
    · exact of_decide_eq_true h3

lemma coherent_t_ne_m {G : Grid} (h : coherent G = true) :
    G.t_pos ≠ G.m_pos := by
  intro he
  have h1 := (coherent_parts h).1
  have h2 := (coherent_parts h).2.1
  rw [he] at h1
  rw [h1] at h2
  cases h2

end CoherenceLemmas

section ParseLemmas

lemma process_char_ok {chr : Char} {curr : Pos} {g t m g' t' m' : Option Pos}
    (h : process_char chr curr g t m = Except.ok (g', t', m')) :
    (t' = t ∨ (chr = 'T' ∧ t = none ∧ t' = some curr)) ∧
    (m' = m ∨ (chr = 'M' ∧ m = none ∧ m' = some curr)) := by
  unfold process_char at h
  by_cases h1 : chr = ' ' ∨ chr = 'X'
  · rw [if_pos h1] at h
    simp only [Except.ok.injEq, Prod.mk.injEq] at h
    exact ⟨Or.inl h.2.1.symm, Or.inl h.2.2.symm⟩
  · rw [if_neg h1] at h
    by_cases h2 : chr = 'G'
    · rw [if_pos h2] at h
      cases g with
      | some _ => cases h
      | none =>
        simp only [Except.ok.injEq, Prod.mk.injEq] at h
        exact ⟨Or.inl h.2.1.symm, Or.inl h.2.2.symm⟩
    · rw [if_neg h2] at h
      by_cases h3 : chr = 'T'
      · rw [if_pos h3] at h
        cases t with
        | some _ => cases h
        | none =>
          simp only [Except.ok.injEq, Prod.mk.injEq] at h
          exact ⟨Or.inr ⟨h3, rfl, h.2.1.symm⟩, Or.inl h.2.2.symm⟩
      · rw [if_neg h3] at h
        by_cases h4 : chr = 'M'
        · rw [if_pos h4] at h
          cases m with
          | some _ => cases h
          | none =>
            simp only [Except.ok.injEq, Prod.mk.injEq] at h
            exact ⟨Or.inl h.2.1.symm, Or.inr ⟨h4, rfl, h.2.2.symm⟩⟩
        · rw [if_neg h4] at h
          cases h

lemma scanRowAux_spec :
    ∀ {cs : List Char} {row col : Nat} {g t m g' t' m' : Option Pos}
      {v : List Char},
      scanRowAux row col cs g t m = Except.ok (v, g', t', m') →
      v = cs ∧
      (∀ p, t' = some p → t = some p ∨
        (p.row = row ∧ col ≤ p.col ∧ cs[p.col - col]? = some 'T')) ∧
      (∀ p, m' = some p → m = some p ∨
        (p.row = row ∧ col ≤ p.col ∧ cs[p.col - col]? = some 'M')) := by
  intro cs
  induction cs with
  | nil =>
    intro row col g t m g' t' m' v h
    simp only [scanRowAux, Except.ok.injEq, Prod.mk.injEq] at h
    refine ⟨h.1.symm, ?_, ?_⟩
    · intro p hp; exact Or.inl (h.2.2.1 ▸ hp)
    · intro p hp; exact Or.inl (h.2.2.2 ▸ hp)
  | cons c rest ih =>
    intro row col g t m g' t' m' v h
    rw [scanRowAux] at h
    cases hp : process_char c ⟨row, col⟩ g t m with
    | error e => rw [hp] at h; cases h
    | ok st1 =>
      obtain ⟨g1, t1, m1⟩ := st1
      rw [hp] at h
      simp only at h
      cases hs : scanRowAux row (col + 1) rest g1 t1 m1 with
      | error e => rw [hs] at h; cases h
      | ok st2 =>
        obtain ⟨v2, g2, t2, m2⟩ := st2
        rw [hs] at h
        simp only [Except.ok.injEq, Prod.mk.injEq] at h
        obtain ⟨hv, hg2, ht2, hm2⟩ := h
        obtain ⟨hv2, iht, ihm⟩ := ih hs
        obtain ⟨hpt, hpm⟩ := process_char_ok hp
        subst hv2
        refine ⟨hv.symm, ?_, ?_⟩
        · intro p hpp
          rcases iht p (ht2 ▸ hpp) with h5 | ⟨hrow, hcol, hcell⟩
          · rcases hpt with h6 | ⟨hc, _, h6⟩
            · exact Or.inl (h6 ▸ h5)
            · rw [h6] at h5
              have hpe : p = Pos.mk row col := (Option.some_inj.mp h5).symm
              subst hpe
              refine Or.inr ⟨rfl, Nat.le_refl _, ?_⟩
              simp [Nat.sub_self, hc]
          · refine Or.inr ⟨hrow, by omega, ?_⟩
            have harith : p.col - col = (p.col - (col + 1)) + 1 := by omega
            rw [harith, List.getElem?_cons_succ]
            exact hcell
        · intro p hpp
          rcases ihm p (hm2 ▸ hpp) with h5 | ⟨hrow, hcol, hcell⟩
          · rcases hpm with h6 | ⟨hc, _, h6⟩
            · exact Or.inl (h6 ▸ h5)
            · rw [h6] at h5
              have hpe : p = Pos.mk row col := (Option.some_inj.mp h5).symm
              subst hpe
              refine Or.inr ⟨rfl, Nat.le_refl _, ?_⟩
              simp [Nat.sub_self, hc]
          · refine Or.inr ⟨hrow, by omega, ?_⟩
            have harith : p.col - col = (p.col - (col + 1)) + 1 := by omega
            rw [harith, List.getElem?_cons_succ]
            exact hcell

lemma scanRows_spec :
    ∀ {ls : List (List Char)} {i : Nat} {g t m g' t' m' : Option Pos}
      {cb cb' : Nat} {rows : List (List Char)},
      scanRows i ls g t m cb = PR.ok (rows, g', t', m', cb') →
      rows = ls ∧
      (∀ p, t' = some p → t = some p ∨
        (i ≤ p.row ∧ ∃ l, ls[p.row - i]? = some l ∧ l[p.col]? = some 'T')) ∧
      (∀ p, m' = some p → m = some p ∨
        (i ≤ p.row ∧ ∃ l, ls[p.row - i]? = some l ∧ l[p.col]? = some 'M')) := by
  intro ls
  induction ls with
  | nil =>
    intro i g t m g' t' m' cb cb' rows h
    simp only [scanRows, PR.ok.injEq, Prod.mk.injEq] at h
    refine ⟨h.1.symm, ?_, ?_⟩
    · intro p hp; exact Or.inl (h.2.2.1 ▸ hp)
    · intro p hp; exact Or.inl (h.2.2.2.1 ▸ hp)
  | cons l rest ih =>
    intro i g t m g' t' m' cb cb' rows h
    rw [scanRows] at h
    cases ha : scanRowAux i 0 l g t m with
    | error e => rw [ha] at h; cases h
    | ok st1 =>
      obtain ⟨row_vec, g1, t1, m1⟩ := st1
      rw [ha] at h
      simp only at h
      by_cases hlen : row_vec.length = 0
      · rw [if_pos hlen] at h; cases h
      · rw [if_neg hlen] at h
        cases hs : scanRows (i + 1) rest g1 t1 m1 (max cb (row_vec.length - 1)) with
        | fault => rw [hs] at h; cases h
        | err e => rw [hs] at h; cases h
        | ok st2 =>
          obtain ⟨grid2, g2, t2, m2, cb2⟩ := st2
          rw [hs] at h
          simp only [PR.ok.injEq, Prod.mk.injEq] at h
          obtain ⟨hrows, hg2, ht2, hm2, hcb2⟩ := h
          obtain ⟨hrv, at1, am1⟩ := scanRowAux_spec ha
          obtain ⟨hg2', it2, im2⟩ := ih hs
          subst hrv
          subst hg2'
          refine ⟨by rw [← hrows], ?_, ?_⟩
          · intro p hpp
            rcases it2 p (ht2 ▸ hpp) with h5 | ⟨hrow, ll, hl1, hl2⟩
            · rcases at1 p h5 with h6 | ⟨hrow, _, hcell⟩
              · exact Or.inl h6
              · refine Or.inr ⟨by omega, row_vec, ?_, by simpa using hcell⟩
                rw [hrow, Nat.sub_self]
                exact List.getElem?_cons_zero
            · refine Or.inr ⟨by omega, ll, ?_, hl2⟩
              have harith : p.row - i = (p.row - (i + 1)) + 1 := by omega
              rw [harith, List.getElem?_cons_succ]
              exact hl1
          · intro p hpp
            rcases im2 p (hm2 ▸ hpp) with h5 | ⟨hrow, ll, hl1, hl2⟩
            · rcases am1 p h5 with h6 | ⟨hrow, _, hcell⟩
              · exact Or.inl h6
              · refine Or.inr ⟨by omega, row_vec, ?_, by simpa using hcell⟩
                rw [hrow, Nat.sub_self]
                exact List.getElem?_cons_zero
            · refine Or.inr ⟨by omega, ll, ?_, hl2⟩
              have harith : p.row - i = (p.row - (i + 1)) + 1 := by omega
              rw [harith, List.getElem?_cons_succ]
              exact hl1

lemma from_board_ok {s : String} {G : Grid} (h : from_board s = PR.ok G) :
    G.vec = rustLines s ∧
    readCell G G.t_pos.row G.t_pos.col = some 'T' ∧
    readCell G G.m_pos.row G.m_pos.col = some 'M' := by
  unfold from_board at h
  cases hs : scanRows 0 (rustLines s) none none none 0 with
  | fault => rw [hs] at h; cases h
  | err e => rw [hs] at h; cases h
  | ok st =>
    obtain ⟨grid, g1, t1, m1, cb⟩ := st
    rw [hs] at h
    simp only at h
    by_cases hlen : grid.length = 0
    · rw [if_pos hlen] at h; cases h
    · rw [if_neg hlen] at h
      cases g1 with
      | none => cases h
      | some gp =>
        cases t1 with
        | none => cases h
        | some tp =>
          cases m1 with
          | none => cases h
          | some mp =>
            simp only [PR.ok.injEq] at h
            obtain ⟨hgrid, ht, hm⟩ := scanRows_spec hs
            subst hgrid
            refine ⟨by rw [← h], ?_, ?_⟩
            · rcases ht tp rfl with h5 | ⟨_, l, hl1, hl2⟩
              · cases h5
              · rw [← h]
                simp only [readCell, readCellV]
                simp only [Nat.sub_zero] at hl1
                rw [hl1]
                exact hl2
            · rcases hm mp rfl with h5 | ⟨_, l, hl1, hl2⟩
              · cases h5
              · rw [← h]
                simp only [readCell, readCellV]
                simp only [Nat.sub_zero] at hl1
                rw [hl1]
                exact hl2

end ParseLemmas

section PosHelpers

lemma pos_eq_of_coords {p q : Pos} (hr : p.row = q.row) (hc : p.col = q.col) :
    p = q := by
  cases p
  cases q
  simp_all

lemma pos_ne_coords {p q : Pos} (h : p ≠ q) :
    p.row ≠ q.row ∨ p.col ≠ q.col := by
  by_cases hr : p.row = q.row
  · by_cases hc : p.col = q.col
    · exact absurd (pos_eq_of_coords hr hc) h
    · exact Or.inr hc
  · exact Or.inl hr

lemma pos_ne_of_cells {G : Grid} {p q : Pos} {a b : Char}
    (hp : readCell G p.row p.col = some a)
    (hq : readCell G q.row q.col = some b) (hab : a ≠ b) : p ≠ q := by
  intro he
  rw [he] at hp
  exact hab (Option.some_inj.mp (hp.symm.trans hq))

end PosHelpers

section CharHelpers

lemma ascii_lower_elim {c d : Char} (h : ascii_lower c = d) :
    c = d ∨ (65 ≤ c.toNat ∧ c.toNat ≤ 90 ∧ c.toNat + 32 = d.toNat) := by
  unfold ascii_lower at h
  by_cases hA : 65 ≤ c.toNat ∧ c.toNat ≤ 90
  · rw [if_pos hA] at h
    have hv : (c.toNat + 32).isValidChar := Or.inl (by omega)
    have ht : (Char.ofNat (c.toNat + 32)).toNat = c.toNat + 32 := by
      simp only [Char.ofNat, hv, dif_pos]
      rfl
    rw [h] at ht
    exact Or.inr ⟨hA.1, hA.2, ht.symm⟩
  · rw [if_neg hA] at h
    exact Or.inl h

lemma char_eq_of_toNat {c : Char} {n : Nat} (h : c.toNat = n) :
    c = Char.ofNat n := by
  have h2 := congrArg Char.ofNat h
  rwa [Char.ofNat_toNat] at h2

end CharHelpers

/-- Claim C1, counterexample.  The claim says `minotaur_move` never
increases the hunter's row index on any state reachable from a parsed
board.  On the board `"GT\n X\n M\n  "` (seeker above the hunter, wall
directly above the hunter, free cell below it) the initial state is
reachable, and one `minotaur_move` moves the hunter from row 2 to row 3,
because the source's fourth branch re-uses the condition
`t_pos.0 < m_pos.0` of the up branch. -/
theorem C1_hunter_moves_down_cex :
    game_from_board "GT\n X\n M\n  " = PR.ok c1_g0 ∧
    minotaur_move c1_g0 = some c1_g1 ∧
    c1_g0.grid.m_pos.row = 2 ∧ c1_g1.grid.m_pos.row = 3 := by
  refine ⟨by rfl, by rfl, rfl, rfl⟩

/-- Claim C1, amended.  The hunter's row can increase (see the
counterexample), but only when the seeker is strictly above the hunter:
whenever the seeker's row is not smaller than the hunter's row, a
non-faulting `minotaur_move` leaves the hunter's row unchanged (both
vertical branches require `t_pos.0 < m_pos.0`). -/
theorem C1_hunter_row_fixed_unless_seeker_above (g g' : Game)
    (hrow : g.grid.m_pos.row ≤ g.grid.t_pos.row)
    (h : minotaur_move g = some g') :
    g'.grid.m_pos.row = g.grid.m_pos.row := by
  rcases minotaur_move_cases h with ⟨_, rfl⟩ |
    ⟨np, hc, _, rfl⟩ | ⟨np, c, v1, v2, hc, _, _, _, _, rfl⟩
  · rfl
  · rfl
  · rcases mm_candidate_cases hc with ⟨_, rfl⟩ | ⟨_, rfl⟩ | ⟨hlt, _⟩ | ⟨hlt, _⟩
    · rfl
    · rfl
    · omega
    · omega

/-- Claim C1, witness for the amended theorem at the board `"GMT"`
(seeker level with the hunter): the hunter's row is unchanged. -/
theorem C1_hunter_row_fixed_witness :
    c1_wg.grid.m_pos.row ≤ c1_wg.grid.t_pos.row ∧
    minotaur_move c1_wg = some c1_wg_after ∧
    c1_wg_after.grid.m_pos.row = c1_wg.grid.m_pos.row :=
  ⟨by decide, by decide,
    C1_hunter_row_fixed_unless_seeker_above c1_wg c1_wg_after (by decide)
      (by decide)⟩

/-- Claim C2.  The claim says every adjacent-cell lookup of
`minotaur_move` indexes an existing cell.  On the rectangular board
`"GT\n X\n M"` the hunter sits on the bottom row with the seeker above it
and a wall in between; the duplicated down branch then evaluates
`is_wall(m_pos.0 + 1, m_pos.1)`, indexing row 3 of a 3-row grid, and the
call panics (modelled by `none`). -/
theorem C2_minotaur_move_reads_out_of_range :
    game_from_board "GT\n X\n M" = PR.ok c2_g ∧
    minotaur_move c2_g = none ∧
    c2_g.grid.m_pos.row = c2_g.grid.row_bound := by
  refine ⟨by rfl, by rfl, rfl⟩

/-- Claim C3.  The claim says a zero-row board or a zero-length row is
rejected with `BoardError.InvalidSize`.  Instead `from_board` underflows
the `usize` subtractions `grid.len() - 1` (zero rows) and
`row_vec.len() - 1` (zero-length row) and faults; `InvalidSize` is never
produced. -/
theorem C3_degenerate_boards_fault :
    from_board "" = PR.fault ∧
    from_board "G\n\nTM" = PR.fault ∧
    from_board "" ≠ PR.err BoardError.InvalidSize ∧
    from_board "G\n\nTM" ≠ PR.err BoardError.InvalidSize := by
  refine ⟨by rfl, by rfl, by decide, by decide⟩

/-- Claim C7.  Whenever the candidate cell selected by `minotaur_move`
holds the seeker, the call only flips the status to `Lose`: the grid
vector, the stored seeker position and the stored hunter position are
all left unchanged (the result is `⟨g.grid, Lose⟩`). -/
theorem C7_capture_only_flips_status (g : Game) (np : Pos)
    (hc : mm_candidate g = some (some np))
    (hT : readCell g.grid np.row np.col = some 'T') :
    minotaur_move g = some { g with status := GameStatus.Lose } := by
  unfold minotaur_move
  rw [hc]
  simp only [hT]
  exact if_pos trivial

/-- Claim C7, witness at the board `"G  \n   \n TM"`: the hunter's
candidate cell holds the seeker, and the call leaves the grid intact. -/
theorem C7_capture_witness :
    mm_candidate c7_wg = some (some ⟨2, 1⟩) ∧
    readCell c7_wg.grid 2 1 = some 'T' ∧
    minotaur_move c7_wg = some { c7_wg with status := GameStatus.Lose } :=
  ⟨by decide, by decide,
    C7_capture_only_flips_status c7_wg ⟨2, 1⟩ (by decide) (by decide)⟩

/-- Claim C9, counterexample.  The claim says the decoder returns `Skip`
when no input line is available; instead the source unwraps
`stdin.lines().next()`, which is `None` at end of input, and panics. -/
theorem C9_no_input_panics_cex :
    input [] = none ∧ input [] ≠ some (some Command.Skip) :=
  ⟨rfl, by decide⟩

/-- Claim C9, amended.  For every available input line the mapping is as
claimed — first character `w`/`W` ↦ `Up`, `a`/`A` ↦ `Left`, `s`/`S` ↦
`Down`, `d`/`D` ↦ `Right`, every other first character and the empty
line ↦ `Skip`, with only the first character consulted — but when no
line is available at all the function panics instead of returning
`Skip`. -/
theorem C9_decode_first_char (cs : List Char) (rest : List (List Char)) :
    input (('w' :: cs) :: rest) = some (some Command.Up) ∧
    input (('W' :: cs) :: rest) = some (some Command.Up) ∧
    input (('a' :: cs) :: rest) = some (some Command.Left) ∧
    input (('A' :: cs) :: rest) = some (some Command.Left) ∧
    input (('s' :: cs) :: rest) = some (some Command.Down) ∧
    input (('S' :: cs) :: rest) = some (some Command.Down) ∧
    input (('d' :: cs) :: rest) = some (some Command.Right) ∧
    input (('D' :: cs) :: rest) = some (some Command.Right) ∧
    input ([] :: rest) = some (some Command.Skip) ∧
    (∀ c : Char, c ≠ 'w' → c ≠ 'W' → c ≠ 'a' → c ≠ 'A' → c ≠ 's' →
      c ≠ 'S' → c ≠ 'd' → c ≠ 'D' →
      input ((c :: cs) :: rest) = some (some Command.Skip)) := by
  refine ⟨rfl, rfl, rfl, rfl, rfl, rfl, rfl, rfl, rfl, ?_⟩
  intro c h1 h2 h3 h4 h5 h6 h7 h8
  have hw : ascii_lower c ≠ 'w' := by
    intro he
    rcases ascii_lower_elim he with rfl | ⟨hlo, hhi, hn⟩
    · exact h1 rfl
    · have hc : c.toNat = 87 := by
        have h9 : ('w').toNat = 119 := by decide
        omega
      exact h2 (by rw [char_eq_of_toNat hc])
  have ha : ascii_lower c ≠ 'a' := by
    intro he
    rcases ascii_lower_elim he with rfl | ⟨hlo, hhi, hn⟩
    · exact h3 rfl
    · have hc : c.toNat = 65 := by
        have h9 : ('a').toNat = 97 := by decide
        omega
      exact h4 (by rw [char_eq_of_toNat hc])
  have hs : ascii_lower c ≠ 's' := by
    intro he
    rcases ascii_lower_elim he with rfl | ⟨hlo, hhi, hn⟩
    · exact h5 rfl
    · have hc : c.toNat = 83 := by
        have h9 : ('s').toNat = 115 := by decide
        omega
      exact h6 (by rw [char_eq_of_toNat hc])
  have hd : ascii_lower c ≠ 'd' := by
    intro he
    rcases ascii_lower_elim he with rfl | ⟨hlo, hhi, hn⟩
    · exact h7 rfl
    · have hc : c.toNat = 68 := by
        have h9 : ('d').toNat = 100 := by decide
        omega
      exact h8 (by rw [char_eq_of_toNat hc])
  simp only [input]
  rw [if_neg hw, if_neg ha, if_neg hs, if_neg hd]

/-- Claim C9, witness for the amended theorem: `"wx"` decodes to `Up`
(later characters ignored) and `"z"` decodes to `Skip`. -/
theorem C9_decode_witness :
    input [['w', 'x']] = some (some Command.Up) ∧
    input [['z']] = some (some Command.Skip) :=
  ⟨(C9_decode_first_char ['x'] []).1,
    (C9_decode_first_char [] []).2.2.2.2.2.2.2.2.2 'z' (by decide) (by decide)
      (by decide) (by decide) (by decide) (by decide) (by decide) (by decide)⟩

/-- Claim C4.  For every board text on which parsing succeeds, the grid
stores exactly the input's lines, character for character, and `show`
renders row `i` as exactly the characters of line `i` in order, followed
by the renderer's fixed trailing marker `' '` (the `println!(" ")` after
each row).  In particular parsing performs no mutation of cell
contents. -/
theorem C4_parse_show_roundtrip (s : String) (g : Game)
    (h : game_from_board s = PR.ok g) :
    g.grid.vec = rustLines s ∧
    show_game g = (rustLines s).map (fun row => row ++ [' ']) := by
  unfold game_from_board at h
  cases hfb : from_board s with
  | fault => rw [hfb] at h; cases h
  | err e => rw [hfb] at h; cases h
  | ok G =>
    rw [hfb] at h
    simp only [PR.ok.injEq] at h
    obtain ⟨hvec, _, _⟩ := from_board_ok hfb
    subst h
    exact ⟨hvec, by rw [show_game, hvec]⟩

/-- Claim C4, witness at the board `"G T\n  M"`. -/
theorem C4_roundtrip_witness :
    game_from_board "G T\n  M" = PR.ok c4_g ∧
    c4_g.grid.vec = rustLines "G T\n  M" ∧
    show_game c4_g =
      (rustLines "G T\n  M").map (fun row => row ++ [' ']) := by
  refine ⟨by rfl, ?_, ?_⟩
  · exact (C4_parse_show_roundtrip "G T\n  M" c4_g (by rfl)).1
  · exact (C4_parse_show_roundtrip "G T\n  M" c4_g (by rfl)).2

lemma mmBranch_fire {G : Grid} {r c0 : Nat} {next : Option (Option Pos)}
    {c : Char} (hr : readCell G r c0 = some c)
    (h1 : c ≠ 'X') (h2 : c ≠ 'G') :
    mmBranch G true ⟨r, c0⟩ next = some (some ⟨r, c0⟩) := by
  unfold mmBranch
  rw [if_pos rfl]
  simp only [hr]
  rw [if_neg (by tauto)]

/-- Claim C5.  In every coherent game state with the seeker strictly left
of and strictly above the hunter, where both the cell left of the hunter
and the cell above the hunter are neither wall nor goal, `minotaur_move`
moves the hunter exactly one cell left (horizontal correction takes
priority over vertical), leaving seeker position and status unchanged. -/
theorem C5_hunter_prefers_left (g : Game)
    (hcoh : coherent g.grid = true)
    (hcol : g.grid.t_pos.col < g.grid.m_pos.col)
    (hrow : g.grid.t_pos.row < g.grid.m_pos.row)
    (cl cu : Char)
    (hl : readCell g.grid g.grid.m_pos.row (g.grid.m_pos.col - 1) = some cl)
    (hlX : cl ≠ 'X') (hlG : cl ≠ 'G')
    (hu : readCell g.grid (g.grid.m_pos.row - 1) g.grid.m_pos.col = some cu)
    (huX : cu ≠ 'X') (huG : cu ≠ 'G') :
    ∃ g', minotaur_move g = some g' ∧
      g'.grid.m_pos = ⟨g.grid.m_pos.row, g.grid.m_pos.col - 1⟩ ∧
      g'.grid.t_pos = g.grid.t_pos ∧ g'.status = g.status := by
  have hM := (coherent_parts hcoh).2.1
  have hclT : cl ≠ 'T' := by
    intro hT
    have h2 := (coherent_cell hcoh hl).1 hT
    have h3 : g.grid.t_pos.row = g.grid.m_pos.row := by rw [← h2]
    omega
  have hne : g.grid.m_pos.col - 1 ≠ g.grid.m_pos.col := by omega
  obtain ⟨v1, hw1⟩ := writeCell_some_of_read ' ' hM
  have hl1 : readCellV v1 g.grid.m_pos.row (g.grid.m_pos.col - 1) = some cl := by
    rw [writeCell_read_other hw1 (Or.inr hne)]
    exact hl
  obtain ⟨v2, hw2⟩ := writeCell_some_of_read 'M' hl1
  have hcand : mm_candidate g =
      some (some ⟨g.grid.m_pos.row, g.grid.m_pos.col - 1⟩) := by
    unfold mm_candidate
    dsimp only
    rw [decide_eq_true hcol]
    exact mmBranch_fire hl hlX hlG
  refine ⟨⟨⟨v2, g.grid.t_pos, ⟨g.grid.m_pos.row, g.grid.m_pos.col - 1⟩,
    g.grid.row_bound, g.grid.col_bound⟩, g.status⟩, ?_, rfl, rfl, rfl⟩
  unfold minotaur_move
  rw [hcand]
  simp only [hl]
  rw [if_neg hclT]
  simp only [hw1, hw2]

/-- Claim C5, witness at the board `"G  \n T \n  M"`: both neighbour cells
open, the hunter steps left to column 1. -/
theorem C5_prefers_left_witness :
    coherent c5_wg.grid = true ∧
    c5_wg.grid.t_pos.col < c5_wg.grid.m_pos.col ∧
    c5_wg.grid.t_pos.row < c5_wg.grid.m_pos.row ∧
    readCell c5_wg.grid 2 1 = some ' ' ∧
    readCell c5_wg.grid 1 2 = some ' ' ∧
    ∃ g', minotaur_move c5_wg = some g' ∧
      g'.grid.m_pos = ⟨2, 1⟩ ∧
      g'.grid.t_pos = c5_wg.grid.t_pos ∧ g'.status = c5_wg.status :=
  ⟨by decide, by decide, by decide, by decide, by decide,
    C5_hunter_prefers_left c5_wg (by decide) (by decide) (by decide) ' ' ' '
      (by decide) (by decide) (by decide) (by decide) (by decide) (by decide)⟩

lemma mm_candidate_cell {g : Game} {np : Pos}
    (h : mm_candidate g = some (some np)) :
    ∃ c, readCell g.grid np.row np.col = some c ∧ c ≠ 'X' ∧ c ≠ 'G' := by
  unfold mm_candidate at h
  rcases mmBranch_elim h with ⟨_, rfl, c, hr, h1, h2⟩ | h
  · exact ⟨c, hr, h1, h2⟩
  rcases mmBranch_elim h with ⟨_, rfl, c, hr, h1, h2⟩ | h
  · exact ⟨c, hr, h1, h2⟩
  rcases mmBranch_elim h with ⟨_, rfl, c, hr, h1, h2⟩ | h
  · exact ⟨c, hr, h1, h2⟩
  rcases mmBranch_elim h with ⟨_, rfl, c, hr, h1, h2⟩ | h
  · exact ⟨c, hr, h1, h2⟩
  · cases h

/-- Claim C6.  The goal acts as a permanent obstacle to the hunter: for
any position `gp` whose cell holds the goal character, if the hunter's
stored position differs from `gp` before a (non-faulting) call to
`minotaur_move`, then after the call the hunter's stored position still
differs from `gp` and the cell at `gp` still holds 'G'.  This relies on
the `is_goal` test guarding every candidate cell: the selected candidate
cannot be the goal's location, so the hunter neither occupies nor
overwrites the goal cell, under any board and any sequence of moves
(per-step preservation). -/
theorem C6_hunter_never_on_goal_cell (g g' : Game) (gp : Pos)
    (hG : readCell g.grid gp.row gp.col = some 'G')
    (hng : g.grid.m_pos ≠ gp)
    (h : minotaur_move g = some g') :
    g'.grid.m_pos ≠ gp ∧ readCell g'.grid gp.row gp.col = some 'G' := by
  rcases minotaur_move_cases h with ⟨_, rfl⟩ |
    ⟨np, hc, hr, rfl⟩ | ⟨np, c, v1, v2, hc, hr, hT, hw1, hw2, rfl⟩
  · exact ⟨hng, hG⟩
  · exact ⟨hng, hG⟩
  · obtain ⟨c2, hr2, hX2, hG2⟩ := mm_candidate_cell hc
    have hcc : c2 = c := Option.some_inj.mp (hr2.symm.trans hr)
    have hcG : c ≠ 'G' := hcc ▸ hG2
    have hnp : np ≠ gp := pos_ne_of_cells hr hG hcG
    refine ⟨hnp, ?_⟩
    have h1 : readCellV v2 gp.row gp.col = readCellV v1 gp.row gp.col :=
      writeCell_read_other hw2 (pos_ne_coords (Ne.symm hnp))
    have h2 : readCellV v1 gp.row gp.col =
        readCellV g.grid.vec gp.row gp.col :=
      writeCell_read_other hw1 (pos_ne_coords (Ne.symm hng))
    exact h1.trans (h2.trans hG)

/-- Claim C6, witness at the board `"G  \n T \n  M"` with the goal at
`(0,0)`: after the hunter's move, `(0,0)` still holds 'G' and the hunter
does not sit on it. -/
theorem C6_never_on_goal_witness :
    readCell c6_wg.grid 0 0 = some 'G' ∧
    c6_wg.grid.m_pos ≠ (⟨0, 0⟩ : Pos) ∧
    minotaur_move c6_wg = some c6_wg_after ∧
    c6_wg_after.grid.m_pos ≠ (⟨0, 0⟩ : Pos) ∧
    readCell c6_wg_after.grid 0 0 = some 'G' := by
  have h := C6_hunter_never_on_goal_cell c6_wg c6_wg_after ⟨0, 0⟩ (by decide)
    (by decide) (by decide)
  exact ⟨by decide, by decide, by decide, h.1, h.2⟩

/-- Claim C8.  In every coherent game state with status `Continue`, a
seeker move whose in-bounds candidate cell is occupied by the hunter
sets the status to `Lose` and updates the stored seeker position to the
candidate, which equals the hunter's former — and unchanged — stored
position; the grid cells themselves are not rewritten. -/
theorem C8_seeker_onto_hunter_loses (g : Game) (cmd : Command) (np : Pos)
    (hst : g.status = GameStatus.Continue)
    (hcoh : coherent g.grid = true)
    (hc : tm_candidate g cmd = some np)
    (hb : in_bounds g.grid np = true)
    (hM : readCell g.grid np.row np.col = some 'M') :
    theseus_move g cmd =
      some ⟨⟨g.grid.vec, np, g.grid.m_pos, g.grid.row_bound,
        g.grid.col_bound⟩, GameStatus.Lose⟩ ∧
    np = g.grid.m_pos := by
  constructor
  · unfold theseus_move
    rw [hc]
    simp only [hb]
    rw [if_neg (by simp)]
    simp only [hM]
    exact if_pos trivial
  · have h2 := (coherent_cell hcoh hM).2 rfl
    exact h2

/-- Claim C8, witness at the board `"G  \n   \n TM"` with command
`Right`: the seeker steps onto the hunter, loses, and its stored
position equals the hunter's. -/
theorem C8_onto_hunter_witness :
    c8_wg.status = GameStatus.Continue ∧
    coherent c8_wg.grid = true ∧
    tm_candidate c8_wg Command.Right = some ⟨2, 2⟩ ∧
    in_bounds c8_wg.grid ⟨2, 2⟩ = true ∧
    readCell c8_wg.grid 2 2 = some 'M' ∧
    theseus_move c8_wg Command.Right =
      some ⟨⟨c8_wg.grid.vec, ⟨2, 2⟩, c8_wg.grid.m_pos, c8_wg.grid.row_bound,
        c8_wg.grid.col_bound⟩, GameStatus.Lose⟩ ∧
    (⟨2, 2⟩ : Pos) = c8_wg.grid.m_pos :=
  ⟨by decide, by decide, by decide, by decide, by decide,
    (C8_seeker_onto_hunter_loses c8_wg Command.Right ⟨2, 2⟩ (by decide)
      (by decide) (by decide) (by decide) (by decide)).1,
    (C8_seeker_onto_hunter_loses c8_wg Command.Right ⟨2, 2⟩ (by decide)
      (by decide) (by decide) (by decide) (by decide)).2⟩

/-- Claim C10.  For every game whose status is `Continue` the grid cell at
the stored seeker position holds 'T' and the cell at the stored hunter
position holds 'M' (hence the two stored positions differ): this holds
after construction from a valid board, and it is preserved by
`theseus_move` and by `minotaur_move` whenever the resulting status is
still `Continue`.  On the terminal transitions the grid cells are not
rewritten: a seeker move that ends the game updates only `t_pos` and the
status (the grid vector and the hunter position are unchanged, so the
grid may still show 'T' at the seeker's previous cell), and a hunter move
that changes the status leaves the whole grid record unchanged. -/
theorem C10_entity_cell_invariant :
    (∀ s G, game_from_board s = PR.ok G → placed G) ∧
    (∀ g : Game, placed g → g.grid.t_pos ≠ g.grid.m_pos) ∧
    (∀ g cmd g', placed g → theseus_move g cmd = some g' →
      g'.status = GameStatus.Continue → placed g') ∧
    (∀ g g', placed g → minotaur_move g = some g' →
      g'.status = GameStatus.Continue → placed g') ∧
    (∀ g cmd g', g.status = GameStatus.Continue →
      theseus_move g cmd = some g' → g'.status ≠ GameStatus.Continue →
      g'.grid.vec = g.grid.vec ∧ g'.grid.m_pos = g.grid.m_pos) ∧
    (∀ g g', minotaur_move g = some g' → g'.status ≠ g.status →
      g'.grid = g.grid) := by
  have hplaced_ne : ∀ g : Game, placed g → g.grid.t_pos ≠ g.grid.m_pos := by
    intro g hp
    exact pos_ne_of_cells hp.1 hp.2 (by decide)
  refine ⟨?_, hplaced_ne, ?_, ?_, ?_, ?_⟩
  · intro s G h
    unfold game_from_board at h
    cases hfb : from_board s with
    | fault => rw [hfb] at h; cases h
    | err e => rw [hfb] at h; cases h
    | ok G0 =>
      rw [hfb] at h
      simp only [PR.ok.injEq] at h
      obtain ⟨_, ht, hm⟩ := from_board_ok hfb
      subst h
      exact ⟨ht, hm⟩
  · intro g cmd g' hp hmv hst
    rcases theseus_move_cases hmv with ⟨_, rfl⟩ | ⟨np, _, _, rfl⟩ |
      ⟨np, _, _, _, rfl⟩ | ⟨np, _, _, _, rfl⟩ |
      ⟨np, v1, v2, hc, hb, hE, hw1, hw2, rfl⟩ | ⟨np, c, _, _, _, _, _, _, rfl⟩
    · exact hp
    · exact hp
    · cases hst
    · cases hst
    · have htm : g.grid.t_pos ≠ g.grid.m_pos := hplaced_ne g hp
      have hnm : np ≠ g.grid.m_pos :=
        pos_ne_of_cells hE hp.2 (by decide)
      have h1 : readCellV v2 np.row np.col = some 'T' :=
        writeCell_read_same hw2
      have h2 : readCellV v2 g.grid.m_pos.row g.grid.m_pos.col = some 'M' := by
        rw [writeCell_read_other hw2 (pos_ne_coords (Ne.symm hnm))]
        rw [writeCell_read_other hw1 (pos_ne_coords (Ne.symm htm))]
        exact hp.2
      exact ⟨h1, h2⟩
    · exact hp
  · intro g g' hp hmv hst
    rcases minotaur_move_cases hmv with ⟨_, rfl⟩ |
      ⟨np, _, _, rfl⟩ | ⟨np, c, v1, v2, hc, hr, hT, hw1, hw2, rfl⟩
    · exact hp
    · exact hp
    · have htm : g.grid.t_pos ≠ g.grid.m_pos := hplaced_ne g hp
      have hnt : np ≠ g.grid.t_pos := by
        intro he
        rw [he] at hr
        exact hT (Option.some_inj.mp (hr.symm.trans hp.1))
      have h1 : readCellV v2 np.row np.col = some 'M' :=
        writeCell_read_same hw2
      have h2 : readCellV v2 g.grid.t_pos.row g.grid.t_pos.col = some 'T' := by
        rw [writeCell_read_other hw2 (pos_ne_coords (Ne.symm hnt))]
        rw [writeCell_read_other hw1 (pos_ne_coords htm)]
        exact hp.1
      exact ⟨h2, h1⟩
  · intro g cmd g' hst hmv hst'
    rcases theseus_move_cases hmv with ⟨_, rfl⟩ | ⟨np, _, _, rfl⟩ |
      ⟨np, _, _, _, rfl⟩ | ⟨np, _, _, _, rfl⟩ |
      ⟨np, v1, v2, _, _, _, _, _, rfl⟩ | ⟨np, c, _, _, _, _, _, _, rfl⟩
    · exact absurd hst hst'
    · exact absurd hst hst'
    · exact ⟨rfl, rfl⟩
    · exact ⟨rfl, rfl⟩
    · exact absurd hst hst'
    · exact absurd hst hst'
  · intro g g' hmv hst
    rcases minotaur_move_cases hmv with ⟨_, rfl⟩ |
      ⟨np, _, _, rfl⟩ | ⟨np, c, v1, v2, _, _, _, _, _, rfl⟩
    · exact absurd rfl hst
    · rfl
    · exact absurd rfl hst

/-- Claim C10, witness: all six parts instantiated on the small boards
`"GTM"`, `"G  \nT M\n   "` (with command `Down`, then a hunter step),
`"G  \n   \n TM"` (seeker steps onto the hunter), and `"G  \n   \n TM"`
(hunter captures the seeker). -/
theorem C10_invariant_witness :
    placed c10_init ∧
    c10_init.grid.t_pos ≠ c10_init.grid.m_pos ∧
    placed c10_wg_after ∧
    placed c10_wg2 ∧
    ((⟨⟨c8_wg.grid.vec, ⟨2, 2⟩, ⟨2, 2⟩, 2, 2⟩, GameStatus.Lose⟩ : Game).grid.vec
        = c8_wg.grid.vec ∧
      (⟨⟨c8_wg.grid.vec, ⟨2, 2⟩, ⟨2, 2⟩, 2, 2⟩, GameStatus.Lose⟩
        : Game).grid.m_pos = c8_wg.grid.m_pos) ∧
    (⟨c7_wg.grid, GameStatus.Lose⟩ : Game).grid = c7_wg.grid := by
  have h := C10_entity_cell_invariant
  refine ⟨h.1 "GTM" c10_init (by rfl), h.2.1 c10_init (h.1 "GTM" c10_init (by rfl)),
    h.2.2.1 c10_wg Command.Down c10_wg_after ⟨by decide, by decide⟩ (by decide)
      (by decide),
    h.2.2.2.1 c10_wg_after c10_wg2 ?_ (by decide) (by decide),
    h.2.2.2.2.1 c8_wg Command.Right
      ⟨⟨c8_wg.grid.vec, ⟨2, 2⟩, ⟨2, 2⟩, 2, 2⟩, GameStatus.Lose⟩ (by decide)
      (by decide) (by decide),
    h.2.2.2.2.2 c7_wg ⟨c7_wg.grid, GameStatus.Lose⟩ (by decide) (by decide)⟩
  exact h.2.2.1 c10_wg Command.Down c10_wg_after ⟨by decide, by decide⟩
    (by decide) (by decide)
